import Mathlib

/-!
Verification of the inventory enrichment core of `web-cs2`
(`src/app/api/inventory/[steamid]/route.ts`).

The TypeScript route scrapes inventory items, generates canonical-name
candidates per item (`generateSearchVariations`), resolves them against the
`buffinfo` reference table (`searchItemsBatch`), and enriches each item with a
price and icon (`enrichAllItems`).  Below is a shallow embedding of that core:
JS strings are Lean `String`s manipulated through their character lists, the
JS `Map` is an insertion-ordered association list, the reference store is a
list of rows (a SQL `IN` query returns the rows whose key is in the list, a
`LIKE '%x%'` query the rows whose key contains `x`), and the one fallible
step (`searchItemsBatch` throwing) is an explicit `Option` outcome.
-/

namespace WebCs2

/-! ## String primitives (JS semantics, on character lists) -/

/-- Whether `p` is a prefix of `l` (JS `String.startsWith` on lists). -/
def isPre : List Char → List Char → Bool
  | [], _ => true
  | _ :: _, [] => false
  | a :: as, b :: bs => a == b && isPre as bs

/-- Whether `needle` occurs as a contiguous substring of `l`
(JS `String.includes`, SQL `LIKE '%needle%'` with wildcards escaped). -/
def hasSub : List Char → List Char → Bool
  | [], needle => isPre needle []
  | c :: rest, needle => isPre needle (c :: rest) || hasSub rest needle

/-- JS `String.includes`. -/
def strIncludes (s sub : String) : Bool := hasSub s.data sub.data

/-- JS `String.startsWith`. -/
def strStarts (s p : String) : Bool := isPre p.data s.data

/-- JS `String.trim` on a character list: strip whitespace from both ends. -/
def trimL (l : List Char) : List Char :=
  ((l.dropWhile Char.isWhitespace).reverse.dropWhile Char.isWhitespace).reverse

/-- JS `String.trim`. -/
def strTrim (s : String) : String := ⟨trimL s.data⟩

/-- JS `String.toLowerCase` (ASCII letters, as in the names involved). -/
def strLower (s : String) : String := ⟨s.data.map Char.toLower⟩

/-- The source's `baseName.replace(' | ', ', ')`: JS `replace` with a string
pattern replaces only the first occurrence of `" | "`. -/
def replacePipeComma : List Char → List Char
  | ' ' :: '|' :: ' ' :: rest => ',' :: ' ' :: rest
  | c :: rest => c :: replacePipeComma rest
  | [] => []

/-- The source's `baseName.split(' | ')`: split on every occurrence of the
three-character separator `" | "`. -/
def splitPipe : List Char → List (List Char)
  | ' ' :: '|' :: ' ' :: rest => [] :: splitPipe rest
  | c :: rest =>
    match splitPipe rest with
    | [] => [[c]]
    | f :: fs => (c :: f) :: fs
  | [] => [[]]

/-- The expression `baseName.split(' | ').reverse().join(' | ')` from the agent branch. -/
def reverseFields (s : String) : String :=
  ⟨List.intercalate [' ', '|', ' '] (splitPipe s.data).reverse⟩

/-- First-occurrence deduplication, as `[...new Set(variations)]` produces
(JS `Set` keeps insertion order, first occurrence wins). -/
def dedupKeepFirst (seen : List String) : List String → List String
  | [] => []
  | x :: xs =>
    if x ∈ seen then dedupKeepFirst seen xs
    else x :: dedupKeepFirst (x :: seen) xs

/-! ## Data model -/

/-- Structure `ScrapedItem` from the route: one scraped inventory descriptor. -/
structure ScrapedItem where
  name : String
  wear : String
  category : String
  isAgent : Bool
  isKnife : Bool
  isGloves : Bool
deriving DecidableEq

/-- A row of the `buffinfo` reference table.  `priceBuff` and `icon_url` are
`Option`s so that SQL `NULL` (JS `undefined`/`null`) is representable; the
code defends against it with `||`. -/
structure BuffInfoRow where
  market_hash_name : String
  priceBuff : Option Rat
  icon_url : Option String
deriving DecidableEq

/-- The `price` field of `FinalItemInfo` is `number | string`: either a
numeric price or the literal sentinel `'N/A'`. -/
inductive PriceVal where
  | num (v : Rat)
  | na
deriving DecidableEq

/-- Structure `FinalItemInfo` from the route: one enriched output record. -/
structure FinalItemInfo where
  skin : String
  wear : String
  price : PriceVal
  imageUrl : String
deriving DecidableEq

/-- JS `x || d` on a nullable number: `null`/`undefined`/`0` are falsy. -/
def jsOrRat (x : Option Rat) (d : Rat) : Rat :=
  match x with
  | none => d
  | some v => if v = 0 then d else v

/-- JS `x || d` on a nullable string: `null`/`undefined`/`""` are falsy. -/
def jsOrStr (x : Option String) (d : String) : String :=
  match x with
  | none => d
  | some s => if s = "" then d else s

/-! ## `generateSearchVariations` -/

/-- The raw, pre-deduplication variation list built by
`generateSearchVariations`' branches. -/
def rawVariations (item : ScrapedItem) : List String :=
  let baseName := strTrim item.name
  let statTrakMark := if strIncludes item.category "StatTrak" then "StatTrak™ " else ""
  let souvenirMark := if strIncludes item.category "Souvenir" then "Souvenir " else ""
  let starMark :=
    if (item.isKnife || item.isGloves) && !(strStarts baseName "★") then "★ " else ""
  if item.isAgent then
    [baseName,
     baseName ++ " | " ++ item.wear,
     "Agent | " ++ baseName,
     baseName ++ " | Agent",
     ⟨replacePipeComma baseName.data⟩,
     reverseFields baseName]
    ++ (if statTrakMark = "" then []
        else [statTrakMark ++ baseName, starMark ++ statTrakMark ++ baseName])
  else if item.isKnife then
    if item.wear = "Vanilla" || item.wear = "" then
      [starMark ++ statTrakMark ++ baseName,
       statTrakMark ++ baseName,
       "★ " ++ baseName,
       baseName,
       item.wear]
    else
      [starMark ++ statTrakMark ++ baseName ++ " (" ++ item.wear ++ ")",
       statTrakMark ++ baseName ++ " (" ++ item.wear ++ ")",
       "★ " ++ baseName ++ " (" ++ item.wear ++ ")",
       baseName ++ " (" ++ item.wear ++ ")",
       item.wear]
  else if item.isGloves then
    [starMark ++ statTrakMark ++ baseName ++ " (" ++ item.wear ++ ")",
     statTrakMark ++ baseName ++ " (" ++ item.wear ++ ")",
     "★ " ++ baseName ++ " (" ++ item.wear ++ ")",
     baseName ++ " (" ++ item.wear ++ ")",
     starMark ++ statTrakMark ++ baseName,
     baseName,
     item.wear]
  else
    [souvenirMark ++ statTrakMark ++ baseName ++ " (" ++ item.wear ++ ")",
     statTrakMark ++ baseName ++ " (" ++ item.wear ++ ")",
     baseName ++ " (" ++ item.wear ++ ")",
     item.wear]

/-- Function `generateSearchVariations`: the raw variations, deduplicated keeping first
occurrences (`[...new Set(variations)]`) and with blank candidates dropped
(`.filter(v => v.trim().length > 0)`). -/
def generateSearchVariations (item : ScrapedItem) : List String :=
  (dedupKeepFirst [] (rawVariations item)).filter
    (fun v => decide (0 < (strTrim v).data.length))

/-! ## The JS `Map`: an insertion-ordered association list

`Map.set` on a present key overwrites in place (keeping the key's original
position); on an absent key it appends.  `Map.get` looks the key up;
`Map.entries()` iterates in insertion order, which is the list order here. -/

/-- The `itemMap : Map<string, BuffInfoRow>` of `searchItemsBatch`. -/
abbrev MapL : Type := List (String × BuffInfoRow)

/-- JS `Map.get` (`undefined` as `none`). -/
def mapGet (m : MapL) (k : String) : Option BuffInfoRow :=
  (List.find? (fun e => e.1 = k) m).map (fun e => e.2)

/-- JS `Map.set`: overwrite in place if the key is present, else append. -/
def mapSet (m : MapL) (k : String) (v : BuffInfoRow) : MapL :=
  if (List.any m (fun e => e.1 = k)) then
    List.map (fun e => if e.1 = k then (k, v) else e) m
  else
    m ++ [(k, v)]

/-! ## `searchItemsBatch`

The reference store is modelled as the list of rows of `buffinfo`:
`SELECT ... WHERE market_hash_name IN (chunk)` returns the rows whose key is
in the chunk, and `SELECT ... WHERE market_hash_name LIKE '%name%' LIMIT 5`
(wildcards in `name` escaped) the first five rows whose key contains `name`.
Rows come back in table order; string comparison is modelled exact
(collation-independent). -/

/-- The chunking of the `for (let i = 0; i < n; i += CHUNK_SIZE)` loop:
successive slices of `chunkCap` elements (`acc` holds the current chunk
reversed, `room` the remaining capacity). -/
def chunkAux (chunkCap : Nat) : List α → List α → Nat → List (List α)
  | [], acc, _ => [acc.reverse]
  | x :: xs, acc, 0 => acc.reverse :: chunkAux chunkCap xs [x] (chunkCap - 1)
  | x :: xs, acc, room + 1 => chunkAux chunkCap xs (x :: acc) room

/-- Split `l` into successive chunks of `n` elements (the last may be
shorter); no chunks for an empty list, as in the source loop. -/
def chunksOf (n : Nat) (l : List α) : List (List α) :=
  match l with
  | [] => []
  | x :: xs => chunkAux n xs [x] (n - 1)

/-- Constant `CHUNK_SIZE` from the source. -/
def CHUNK_SIZE : Nat := 100

/-- One `IN (...)` chunk query: the catalog rows whose key is in the chunk. -/
def rowsFor (catalog : List BuffInfoRow) (chunk : List String) : List BuffInfoRow :=
  catalog.filter (fun r => decide (r.market_hash_name ∈ chunk))

/-- The last row of a list whose key is `k` (specification device: this is
what repeated `Map.set` leaves behind for key `k`). -/
def lastMatch (k : String) : List BuffInfoRow → Option BuffInfoRow
  | [] => none
  | r :: rs =>
    match lastMatch k rs with
    | some x => some x
    | none => if r.market_hash_name = k then some r else none

/-- Fold a query's rows into the item map (`itemMap.set(row.market_hash_name, row)`). -/
def insRows (m : MapL) (rows : List BuffInfoRow) : MapL :=
  rows.foldl (fun m r => mapSet m r.market_hash_name r) m

/-- The chunked exact-match phase of `searchItemsBatch`: one `IN` query per
chunk, each query's rows folded into the map. -/
def exactPhase (catalog : List BuffInfoRow) (queries : List String)
    (chunkCap : Nat) (m0 : MapL) : MapL :=
  (chunksOf chunkCap queries).foldl (fun m chunk => insRows m (rowsFor catalog chunk)) m0

/-- The unchunked equivalent: a single `IN` query over all candidates. -/
def exactLookupAll (catalog : List BuffInfoRow) (queries : List String)
    (m0 : MapL) : MapL :=
  insRows m0 (rowsFor catalog queries)

/-- The approximate phase: for each item left unmatched by the exact phase,
run `LIKE '%name%' LIMIT 5` and `set` the first row, if any. -/
def likePhase (catalog : List BuffInfoRow) (notFound : List ScrapedItem)
    (m1 : MapL) : MapL :=
  notFound.foldl
    (fun m item =>
      match (catalog.filter
               (fun r => hasSub r.market_hash_name.data item.name.data)).take 5 with
      | [] => m
      | r :: _ => mapSet m r.market_hash_name r)
    m1

/-- Function `searchItemsBatch` (success path; a thrown connection error is modelled at
the `enrichAllItems` level).  Collects every item's variations, returns the
empty map early when there are none, runs the chunked exact phase, then the
approximate phase over the items none of whose variations were found. -/
def searchItemsBatch (catalog : List BuffInfoRow) (items : List ScrapedItem) : MapL :=
  let allVariations := items.flatMap generateSearchVariations
  if allVariations.isEmpty then ([] : MapL)
  else
    let m1 := exactPhase catalog allVariations CHUNK_SIZE []
    let notFound := items.filter
      (fun item => !((generateSearchVariations item).any (fun v => (mapGet m1 v).isSome)))
    likePhase catalog notFound m1

/-! ## `enrichAllItems` -/

/-- The `wear` field of an output record: scraped wear overridden to
`"Agent"` / `"Gloves"` by the category flags. -/
def wearOf (item : ScrapedItem) : String :=
  if item.isAgent then "Agent" else if item.isGloves then "Gloves" else item.wear

/-- The display-name adjustment: StatTrak marker from the category tag, then
the star marker for knives/gloves when not already present — computed from
the descriptor alone. -/
def displayNameOf (item : ScrapedItem) : String :=
  let d1 := if strIncludes item.category "StatTrak" then "StatTrak™ " ++ item.name
            else item.name
  if (item.isKnife || item.isGloves) && !(strStarts d1 "★") then "★ " ++ d1 else d1

/-- Enrich one item against the item map: first variation found in the map
wins; otherwise the first map entry (insertion order) whose key contains the
item name case-insensitively; otherwise the `'N/A'` sentinel. -/
def enrichOne (m : MapL) (item : ScrapedItem) : FinalItemInfo :=
  match (generateSearchVariations item).findSome? (fun v => mapGet m v) with
  | some row =>
    { skin := displayNameOf item, wear := wearOf item,
      price := PriceVal.num (jsOrRat row.priceBuff 0),
      imageUrl := jsOrStr row.icon_url "" }
  | none =>
    match List.find? (fun e => hasSub (strLower e.1).data (strLower item.name).data) m with
    | some e =>
      { skin := displayNameOf item, wear := wearOf item,
        price := PriceVal.num (jsOrRat e.2.priceBuff 0),
        imageUrl := jsOrStr e.2.icon_url "" }
    | none =>
      { skin := displayNameOf item, wear := wearOf item,
        price := PriceVal.na, imageUrl := "" }

/-- The record built on the catch-all error path of `enrichAllItems`. -/
def fallbackItemInfo (item : ScrapedItem) : FinalItemInfo :=
  { skin := item.name, wear := wearOf item, price := PriceVal.na, imageUrl := "" }

/-- Function `enrichAllItems`, with the outcome of `searchItemsBatch` made explicit:
`some m` is the normal path (the loop pushing one enriched record per item),
`none` the catch branch taken when `searchItemsBatch` throws, which maps
every item to a sentinel record. -/
def enrichAllItems (outcome : Option MapL) (items : List ScrapedItem) :
    List FinalItemInfo :=
  match outcome with
  | some m => items.foldl (fun acc item => acc ++ [enrichOne m item]) []
  | none => items.map fallbackItemInfo

/-- End-to-end success path: `enrichAllItems` over the `searchItemsBatch`
result for a given catalog. -/
def enrichWithCatalog (catalog : List BuffInfoRow) (items : List ScrapedItem) :
    List FinalItemInfo :=
  enrichAllItems (some (searchItemsBatch catalog items)) items

/-! ## Concrete fixtures (descriptors and catalog rows used in witnesses) -/

/-- A regular skin descriptor. -/
def regularItem : ScrapedItem :=
  { name := "Redline", wear := "Field-Tested", category := "",
    isAgent := false, isKnife := false, isGloves := false }

/-- A catalog row whose key contains `regularItem`'s name as a substring but
is none of its exact-match candidates. -/
def redlineRow : BuffInfoRow :=
  { market_hash_name := "AK-47 | Redline (Field-Tested)",
    priceBuff := some 10, icon_url := some "img" }

/-- A catalog row unrelated to `regularItem` by both exact and substring match. -/
def farAwayRow : BuffInfoRow :=
  { market_hash_name := "Totally Different", priceBuff := some 5, icon_url := some "u" }

/-- A catalog row with a `NULL` price, keyed by one of `regularItem`'s
exact-match candidates. -/
def nullPriceRow : BuffInfoRow :=
  { market_hash_name := "Redline (Field-Tested)", priceBuff := none, icon_url := some "img2" }

/-- A StatTrak-tagged agent descriptor. -/
def agentStatItem : ScrapedItem :=
  { name := "Ground Rebel | Elite Crew", wear := "", category := "StatTrak",
    isAgent := true, isKnife := false, isGloves := false }

/-- The knife descriptor of the spec's test scenario. -/
def karambitFN : ScrapedItem :=
  { name := "Karambit", wear := "Factory New", category := "Knife",
    isAgent := false, isKnife := true, isGloves := false }

/-- A knife descriptor whose wear string equals its base name. -/
def karambitWeird : ScrapedItem :=
  { name := "Karambit", wear := "Karambit", category := "Knife",
    isAgent := false, isKnife := true, isGloves := false }

/-- A Souvenir-tagged regular descriptor. -/
def souvenirItem : ScrapedItem :=
  { name := "Desert Eagle", wear := "Factory New", category := "Souvenir",
    isAgent := false, isKnife := false, isGloves := false }

/-- A regular descriptor whose scraped wear carries surrounding whitespace. -/
def blankWearItem : ScrapedItem :=
  { name := "AK", wear := " X ", category := "",
    isAgent := false, isKnife := false, isGloves := false }

/-! ## Lemmas: strings and list folds -/

theorem strData_append (a b : String) : (a ++ b).data = a.data ++ b.data := by
  cases a; cases b; rfl

theorem foldl_push_eq_map (f : α → β) :
    ∀ (l : List α) (acc : List β),
      l.foldl (fun acc a => acc ++ [f a]) acc = acc ++ l.map f
  | [], acc => by simp
  | x :: xs, acc => by
    simp only [List.foldl_cons, List.map_cons, foldl_push_eq_map f xs,
      List.append_assoc, List.singleton_append]

/-! ## Lemmas: the JS map -/

theorem find?_update_self (k : String) (v : BuffInfoRow) :
    ∀ (m : MapL), m.any (fun e => decide (e.1 = k)) = true →
      List.find? (fun e => decide (e.1 = k))
        (m.map (fun e => if e.1 = k then (k, v) else e)) = some (k, v)
  | [], h => by simp at h
  | e :: es, h => by
    by_cases he : e.1 = k
    · simp [List.find?_cons, he]
    · have h' : es.any (fun e => decide (e.1 = k)) = true := by
        simpa [List.any_cons, he] using h
      simpa [List.find?_cons, he] using find?_update_self k v es h'

theorem lastMatch_cons (k : String) (r : BuffInfoRow) (rs : List BuffInfoRow) :
    lastMatch k (r :: rs) =
      match lastMatch k rs with
      | some x => some x
      | none => if r.market_hash_name = k then some r else none := rfl

theorem find?_update_other (k k' : String) (v : BuffInfoRow) (h : k' ≠ k) :
    ∀ (m : MapL),
      List.find? (fun e => decide (e.1 = k'))
        (m.map (fun e => if e.1 = k then (k, v) else e)) =
      List.find? (fun e => decide (e.1 = k')) m
  | [] => rfl
  | e :: es => by
    have hkk : ¬ (k = k') := fun hh => h hh.symm
    by_cases he : e.1 = k
    · have h2 : ¬ (e.1 = k') := he ▸ hkk
      simp only [List.map_cons, if_pos he, List.find?_cons, decide_eq_false hkk,
        decide_eq_false h2]
      exact find?_update_other k k' v h es
    · simp only [List.map_cons, if_neg he, List.find?_cons]
      cases hp : decide (e.1 = k') with
      | true => rfl
      | false => exact find?_update_other k k' v h es

theorem find?_append_single (k k' : String) (v : BuffInfoRow) :
    ∀ (m : MapL), m.any (fun e => decide (e.1 = k)) = false →
      List.find? (fun e => decide (e.1 = k')) (m ++ [(k, v)]) =
        if k' = k then some (k, v) else List.find? (fun e => decide (e.1 = k')) m
  | [], _ => by
    by_cases hk : k' = k
    · simp [List.find?_cons, hk]
    · have hkk : ¬ (k = k') := fun hh => hk hh.symm
      simp [List.find?_cons, hk, decide_eq_false hkk]
  | e :: es, h => by
    have h1 : ¬ (e.1 = k) := by
      intro hh
      simp [List.any_cons, hh] at h
    have h2 : es.any (fun e => decide (e.1 = k)) = false := by
      simpa [List.any_cons, h1] using h
    by_cases hk : e.1 = k'
    · have hne : k' ≠ k := fun hh => h1 (hk.trans hh)
      simp [List.cons_append, List.find?_cons, hk, hne]
    · simpa [List.cons_append, List.find?_cons, hk] using find?_append_single k k' v es h2

theorem mapGet_mapSet (m : MapL) (k k' : String) (v : BuffInfoRow) :
    mapGet (mapSet m k v) k' = if k' = k then some v else mapGet m k' := by
  unfold mapGet mapSet
  cases hany : m.any (fun e => decide (e.1 = k)) with
  | true =>
    rw [if_pos rfl]
    by_cases hk : k' = k
    · rw [if_pos hk, hk, find?_update_self k v m hany]
      rfl
    · rw [find?_update_other k k' v hk m, if_neg hk]
  | false =>
    rw [if_neg (by simp)]
    rw [find?_append_single k k' v m hany]
    by_cases hk : k' = k <;> simp [hk]

theorem mapGet_insRows (k : String) :
    ∀ (rows : List BuffInfoRow) (m : MapL),
      mapGet (insRows m rows) k =
        match lastMatch k rows with
        | some r => some r
        | none => mapGet m k
  | [], m => rfl
  | r :: rs, m => by
    have step : insRows m (r :: rs) = insRows (mapSet m r.market_hash_name r) rs := rfl
    rw [step, mapGet_insRows k rs (mapSet m r.market_hash_name r), lastMatch_cons]
    cases hl : lastMatch k rs with
    | some x => rfl
    | none =>
      rw [mapGet_mapSet]
      by_cases hk : k = r.market_hash_name
      · subst hk
        simp
      · simp [hk, Ne.symm hk]

/-! ## Lemmas: the chunked exact phase (claim C6) -/

theorem lastMatch_rowsFor (k : String) (chunk : List String) :
    ∀ catalog, lastMatch k (rowsFor catalog chunk) =
      if k ∈ chunk then lastMatch k catalog else none
  | [] => by by_cases hk : k ∈ chunk <;> simp [rowsFor, lastMatch, hk]
  | r :: cat => by
    have ih := lastMatch_rowsFor k chunk cat
    unfold rowsFor at ih ⊢
    by_cases hr : r.market_hash_name ∈ chunk
    · rw [List.filter_cons_of_pos (by simpa using hr), lastMatch_cons, ih, lastMatch_cons]
      by_cases hk : k ∈ chunk
      · rw [if_pos hk, if_pos hk]
      · have hne : ¬ (r.market_hash_name = k) := fun hh => hk (hh ▸ hr)
        rw [if_neg hk, if_neg hk]
        simp [hne]
    · rw [List.filter_cons_of_neg (by simpa using hr), ih, lastMatch_cons]
      by_cases hk : k ∈ chunk
      · have hne : ¬ (r.market_hash_name = k) := fun hh => hr (hh ▸ hk)
        rw [if_pos hk, if_pos hk]
        cases lastMatch k cat <;> simp [hne]
      · rw [if_neg hk, if_neg hk]

theorem mapGet_exactFold (catalog : List BuffInfoRow) (k : String) :
    ∀ (chunks : List (List String)) (m : MapL),
      mapGet (chunks.foldl (fun m c => insRows m (rowsFor catalog c)) m) k =
        match (if chunks.any (fun c => decide (k ∈ c)) then lastMatch k catalog else none) with
        | some r => some r
        | none => mapGet m k
  | [], m => by simp
  | c :: cs, m => by
    have ih := mapGet_exactFold catalog k cs (insRows m (rowsFor catalog c))
    simp only [List.foldl_cons] at *
    rw [ih, mapGet_insRows k (rowsFor catalog c) m, lastMatch_rowsFor k c catalog]
    by_cases hc : k ∈ c <;> by_cases hcs : cs.any (fun c => decide (k ∈ c)) = true <;>
      cases hcat : lastMatch k catalog <;>
      simp [hc, hcs, hcat, List.any_cons]

theorem flatten_chunkAux (n : Nat) :
    ∀ (xs acc : List α) (room : Nat), (chunkAux n xs acc room).flatten = acc.reverse ++ xs
  | [], acc, room => by simp [chunkAux]
  | x :: xs, acc, 0 => by
    simp [chunkAux, flatten_chunkAux n xs [x] (n - 1)]
  | x :: xs, acc, room + 1 => by
    simp [chunkAux, flatten_chunkAux n xs (x :: acc) room]

theorem flatten_chunksOf (n : Nat) (l : List α) : (chunksOf n l).flatten = l := by
  cases l with
  | nil => rfl
  | cons x xs => simp [chunksOf, flatten_chunkAux n xs [x] (n - 1)]

theorem mem_chunksOf_any [DecidableEq α] (n : Nat) (l : List α) (k : α) :
    ((chunksOf n l).any (fun c => decide (k ∈ c)) = true) ↔ k ∈ l := by
  have hmem : k ∈ (chunksOf n l).flatten ↔ ∃ c ∈ chunksOf n l, k ∈ c := List.mem_flatten
  rw [flatten_chunksOf] at hmem
  simp only [List.any_eq_true, decide_eq_true_eq]
  exact hmem.symm

/-! ## Lemmas: deduplication, membership and trimming in the generator -/

theorem mem_dedupKeepFirst (x : String) :
    ∀ (l seen : List String), x ∈ dedupKeepFirst seen l ↔ (x ∈ l ∧ x ∉ seen)
  | [], seen => by simp [dedupKeepFirst]
  | y :: ys, seen => by
    unfold dedupKeepFirst
    by_cases hy : y ∈ seen
    · rw [if_pos hy, mem_dedupKeepFirst x ys seen]
      constructor
      · exact fun h => ⟨List.mem_cons_of_mem y h.1, h.2⟩
      · rintro ⟨h1, h2⟩
        rcases List.mem_cons.mp h1 with rfl | h1
        · exact absurd hy h2
        · exact ⟨h1, h2⟩
    · rw [if_neg hy, List.mem_cons, mem_dedupKeepFirst x ys (y :: seen)]
      constructor
      · rintro (rfl | ⟨h1, h2⟩)
        · exact ⟨List.mem_cons_self _ _, hy⟩
        · exact ⟨List.mem_cons_of_mem y h1, fun hs => h2 (List.mem_cons_of_mem y hs)⟩
      · rintro ⟨h1, h2⟩
        rcases List.mem_cons.mp h1 with rfl | h1
        · exact Or.inl rfl
        · by_cases hxy : x = y
          · exact Or.inl hxy
          · exact Or.inr ⟨h1, fun hs => (List.mem_cons.mp hs).elim hxy h2⟩

theorem nodup_dedupKeepFirst :
    ∀ (l seen : List String), (dedupKeepFirst seen l).Nodup
  | [], _ => List.nodup_nil
  | y :: ys, seen => by
    unfold dedupKeepFirst
    by_cases hy : y ∈ seen
    · rw [if_pos hy]
      exact nodup_dedupKeepFirst ys seen
    · rw [if_neg hy]
      refine List.nodup_cons.mpr ⟨?_, nodup_dedupKeepFirst ys (y :: seen)⟩
      intro hmem
      exact ((mem_dedupKeepFirst y ys (y :: seen)).mp hmem).2 (List.mem_cons_self y seen)

theorem mem_generateSearchVariations (item : ScrapedItem) (v : String) :
    v ∈ generateSearchVariations item ↔
      (v ∈ rawVariations item ∧ 0 < (strTrim v).data.length) := by
  unfold generateSearchVariations
  rw [List.mem_filter, mem_dedupKeepFirst]
  simp

theorem nodup_generateSearchVariations (item : ScrapedItem) :
    (generateSearchVariations item).Nodup :=
  List.Nodup.filter _ (nodup_dedupKeepFirst (rawVariations item) [])

theorem mem_trimL {c : Char} {l : List Char} (h : c ∈ l) (hc : c.isWhitespace = false) :
    c ∈ trimL l := by
  have hstep : ∀ l' : List Char, c ∈ l' → c ∈ l'.dropWhile Char.isWhitespace := by
    intro l' hl'
    rcases List.mem_append.mp
        ((List.takeWhile_append_dropWhile (p := Char.isWhitespace) (l := l')) ▸ hl') with
      h' | h'
    · have := List.mem_takeWhile_imp h'
      rw [hc] at this
      exact absurd this (by simp)
    · exact h'
  exact List.mem_reverse.mpr (hstep _ (List.mem_reverse.mpr (hstep l h)))

theorem trim_pos_of_mem {s : String} {c : Char} (h : c ∈ s.data) (hc : c.isWhitespace = false) :
    0 < (strTrim s).data.length := by
  have hmem : c ∈ trimL s.data := mem_trimL h hc
  have hne : trimL s.data ≠ [] := List.ne_nil_of_mem hmem
  simpa [strTrim] using List.length_pos.mpr hne

/-! ## Lemmas: the enrichment loop -/

theorem enrichAllItems_some (m : MapL) (items : List ScrapedItem) :
    enrichAllItems (some m) items = items.map (enrichOne m) := by
  unfold enrichAllItems
  simpa using foldl_push_eq_map (enrichOne m) items []

/-! ## Claim C1 -/

/-- C1: for every non-empty descriptor list, `enrichAllItems` returns a list
of the same length whose record at index `i` is the enrichment of the input
descriptor at index `i` (one output per input, input order), for every
matcher outcome; and when `searchItemsBatch` throws (`outcome = none`) every
returned record carries the `'N/A'` price sentinel and an empty icon URL. -/
theorem enrich_preserves_length_order (outcome : Option MapL) (items : List ScrapedItem)
    (i : Nat) (info : FinalItemInfo) (hne : items ≠ []) :
    (enrichAllItems outcome items).length = items.length ∧
    (enrichAllItems outcome items)[i]? =
      (items[i]?).map (fun it =>
        match outcome with
        | some m => enrichOne m it
        | none => fallbackItemInfo it) ∧
    (outcome = none → (enrichAllItems outcome items)[i]? = some info →
      info.price = PriceVal.na ∧ info.imageUrl = "") := by
  cases outcome with
  | some m =>
    rw [enrichAllItems_some]
    refine ⟨List.length_map _ _, List.getElem?_map .., ?_⟩
    intro h
    cases h
  | none =>
    unfold enrichAllItems
    refine ⟨List.length_map _ _, List.getElem?_map .., ?_⟩
    intro _ hinfo
    rw [List.getElem?_map] at hinfo
    cases hit : items[i]? with
    | none => rw [hit] at hinfo; cases hinfo
    | some it =>
      rw [hit] at hinfo
      cases hinfo
      exact ⟨rfl, rfl⟩

/-- Witness for C1: a one-descriptor batch under total matcher failure. -/
theorem enrich_preserves_length_order_witness :
    (([regularItem] : List ScrapedItem) ≠ []) ∧
    ((enrichAllItems none [regularItem]).length = ([regularItem] : List ScrapedItem).length ∧
     (enrichAllItems none [regularItem])[0]? =
       ((([regularItem] : List ScrapedItem))[0]?).map (fun it =>
         match (none : Option MapL) with
         | some m => enrichOne m it
         | none => fallbackItemInfo it) ∧
     ((none : Option MapL) = none →
       (enrichAllItems none [regularItem])[0]? = some (fallbackItemInfo regularItem) →
       (fallbackItemInfo regularItem).price = PriceVal.na ∧
       (fallbackItemInfo regularItem).imageUrl = "")) :=
  ⟨by decide,
   enrich_preserves_length_order none [regularItem] 0 (fallbackItemInfo regularItem)
     (by decide)⟩

/-! ## Claim C6 -/

/-- C6: with a positive chunk size smaller than the candidate count, the
chunked exact-match phase yields the same candidate-to-record mapping as a
single unchunked lookup of all candidates (no chunk failing). -/
theorem chunked_lookup_eq_unchunked (catalog : List BuffInfoRow) (queries : List String)
    (n : Nat) (m0 : MapL) (k : String) (hn : 0 < n) (hlt : n < queries.length) :
    mapGet (exactPhase catalog queries n m0) k =
      mapGet (exactLookupAll catalog queries m0) k := by
  unfold exactPhase exactLookupAll
  rw [mapGet_exactFold catalog k (chunksOf n queries) m0,
      mapGet_insRows k (rowsFor catalog queries) m0,
      lastMatch_rowsFor k queries catalog]
  by_cases hq : k ∈ queries
  · rw [if_pos ((mem_chunksOf_any n queries k).mpr hq), if_pos hq]
  · rw [if_neg (fun hh => hq ((mem_chunksOf_any n queries k).mp hh)), if_neg hq]

/-- Witness for C6: three candidates in chunks of two, against a one-row
catalog, probed at the matching key. -/
theorem chunked_lookup_eq_unchunked_witness :
    (0 < 2 ∧ 2 < (["AK-47 | Redline (Field-Tested)", "a", "b"] : List String).length) ∧
    mapGet (exactPhase [redlineRow] ["AK-47 | Redline (Field-Tested)", "a", "b"] 2 [])
        "AK-47 | Redline (Field-Tested)" =
      mapGet (exactLookupAll [redlineRow] ["AK-47 | Redline (Field-Tested)", "a", "b"] [])
        "AK-47 | Redline (Field-Tested)" :=
  ⟨⟨by decide, by decide⟩,
   chunked_lookup_eq_unchunked [redlineRow] ["AK-47 | Redline (Field-Tested)", "a", "b"]
     2 [] "AK-47 | Redline (Field-Tested)" (by decide) (by decide)⟩

/-! ## Claim C8 -/

/-- C8: two descriptors that are equal (same name, wear, category, flags) at
different positions are enriched identically and independently: their output
records are equal, and when some variation of theirs is in the map, both
records carry that record's price and icon URL. -/
theorem duplicate_descriptors_both_match (m : MapL) (items : List ScrapedItem)
    (i j : Nat) (d : ScrapedItem) (row : BuffInfoRow)
    (hi : items[i]? = some d) (hj : items[j]? = some d) :
    (enrichAllItems (some m) items)[i]? = (enrichAllItems (some m) items)[j]? ∧
    ((generateSearchVariations d).findSome? (fun v => mapGet m v) = some row →
      (enrichAllItems (some m) items)[i]? = some
        { skin := displayNameOf d, wear := wearOf d,
          price := PriceVal.num (jsOrRat row.priceBuff 0),
          imageUrl := jsOrStr row.icon_url "" }) := by
  rw [enrichAllItems_some]
  constructor
  · rw [List.getElem?_map, List.getElem?_map, hi, hj]
  · intro hrow
    rw [List.getElem?_map, hi]
    simp [enrichOne, hrow]

/-- Witness for C8: the same descriptor twice, with a map holding one of its
candidates. -/
theorem duplicate_descriptors_both_match_witness :
    ((([regularItem, regularItem] : List ScrapedItem))[0]? = some regularItem ∧
     (([regularItem, regularItem] : List ScrapedItem))[1]? = some regularItem ∧
     (generateSearchVariations regularItem).findSome?
       (fun v => mapGet [("Redline (Field-Tested)", nullPriceRow)] v) = some nullPriceRow) ∧
    (enrichAllItems (some [("Redline (Field-Tested)", nullPriceRow)])
        [regularItem, regularItem])[0]? =
      (enrichAllItems (some [("Redline (Field-Tested)", nullPriceRow)])
        [regularItem, regularItem])[1]? :=
  ⟨⟨by decide, by decide, by decide⟩,
   (duplicate_descriptors_both_match [("Redline (Field-Tested)", nullPriceRow)]
     [regularItem, regularItem] 0 1 regularItem nullPriceRow (by decide) (by decide)).1⟩

/-! ## Claim C9 -/

/-- C9: a matched record's falsy price (`NULL` or `0`) enriches to the number
`0`, not the `'N/A'` sentinel; the sentinel occurs exactly when no record
matches the descriptor (neither an exact variation hit nor the approximate
containment scan over the map). -/
theorem falsy_price_yields_zero (m : MapL) (item : ScrapedItem) (row : BuffInfoRow) :
    ((generateSearchVariations item).findSome? (fun v => mapGet m v) = some row →
      (enrichOne m item).price = PriceVal.num (jsOrRat row.priceBuff 0) ∧
      ((row.priceBuff = none ∨ row.priceBuff = some 0) →
        (enrichOne m item).price = PriceVal.num 0)) ∧
    ((enrichOne m item).price = PriceVal.na ↔
      ((generateSearchVariations item).findSome? (fun v => mapGet m v) = none ∧
       List.find? (fun e => hasSub (strLower e.1).data (strLower item.name).data) m
         = none)) := by
  constructor
  · intro hrow
    have h1 : (enrichOne m item).price = PriceVal.num (jsOrRat row.priceBuff 0) := by
      simp [enrichOne, hrow]
    refine ⟨h1, ?_⟩
    rintro (h | h) <;> simp [h1, jsOrRat, h]
  · cases hf : (generateSearchVariations item).findSome? (fun v => mapGet m v) with
    | some row' => simp [enrichOne, hf]
    | none =>
      cases hfind : List.find?
          (fun e => hasSub (strLower e.1).data (strLower item.name).data) m with
      | some e => simp [enrichOne, hf, hfind]
      | none => simp [enrichOne, hf, hfind]

/-- Witness for C9: the matched row has a `NULL` price and the enriched price
is the number `0`. -/
theorem falsy_price_yields_zero_witness :
    ((generateSearchVariations regularItem).findSome?
       (fun v => mapGet [("Redline (Field-Tested)", nullPriceRow)] v) = some nullPriceRow ∧
     nullPriceRow.priceBuff = none) ∧
    (enrichOne [("Redline (Field-Tested)", nullPriceRow)] regularItem).price
      = PriceVal.num 0 :=
  ⟨⟨by decide, by decide⟩,
   ((falsy_price_yields_zero [("Redline (Field-Tested)", nullPriceRow)] regularItem
       nullPriceRow).1 (by decide)).2 (Or.inl (by decide))⟩

/-! ## Claim C10 -/

/-- C10: each output record's wear field is determined by its OWN input
descriptor (the one at the same index): `"Agent"` when that descriptor's
`isAgent` flag is set, `"Gloves"` when its `isGloves` flag is set (and
`isAgent` is not), and the descriptor's scraped wear otherwise — on the
normal path and on the total-failure path alike. -/
theorem wear_override_agent_gloves (outcome : Option MapL) (items : List ScrapedItem)
    (i : Nat) (item : ScrapedItem) (info : FinalItemInfo)
    (hit : items[i]? = some item)
    (hout : (enrichAllItems outcome items)[i]? = some info) :
    info.wear =
      (if item.isAgent then "Agent" else if item.isGloves then "Gloves" else item.wear) := by
  cases outcome with
  | some m =>
    rw [enrichAllItems_some, List.getElem?_map, hit] at hout
    cases hout
    show (enrichOne m item).wear = _
    unfold enrichOne
    split
    · rfl
    · split <;> rfl
  | none =>
    unfold enrichAllItems at hout
    rw [List.getElem?_map, hit] at hout
    cases hout
    rfl

/-- Witness for C10: a one-agent batch on the failure path; the record at
index 0 has wear `"Agent"` although the descriptor's scraped wear is empty. -/
theorem wear_override_agent_gloves_witness :
    ((([agentStatItem] : List ScrapedItem))[0]? = some agentStatItem ∧
     (enrichAllItems none [agentStatItem])[0]? = some (fallbackItemInfo agentStatItem)) ∧
    (fallbackItemInfo agentStatItem).wear =
      (if agentStatItem.isAgent then "Agent"
       else if agentStatItem.isGloves then "Gloves" else agentStatItem.wear) :=
  ⟨⟨by decide, by decide⟩,
   wear_override_agent_gloves none [agentStatItem] 0 agentStatItem
     (fallbackItemInfo agentStatItem) (by decide) (by decide)⟩

/-! ## Lemmas: empty results leave the map empty -/

theorem mem_of_mem_chunksOf {α : Type} {x : α} {c : List α} {n : Nat} {l : List α}
    (hc : c ∈ chunksOf n l) (hx : x ∈ c) : x ∈ l := by
  rw [← flatten_chunksOf n l]
  exact List.mem_flatten.mpr ⟨c, hc, hx⟩

theorem exactFold_nil (catalog : List BuffInfoRow) :
    ∀ (chunks : List (List String)) (m : MapL),
      (∀ c ∈ chunks, rowsFor catalog c = []) →
      chunks.foldl (fun m c => insRows m (rowsFor catalog c)) m = m
  | [], _, _ => rfl
  | c :: cs, m, h => by
    have hc := h c (List.mem_cons_self c cs)
    simp only [List.foldl_cons, hc]
    exact exactFold_nil catalog cs m (fun c' hc' => h c' (List.mem_cons_of_mem c hc'))

theorem findSome?_mapGet_nil (l : List String) :
    l.findSome? (fun v => mapGet ([] : MapL) v) = none := by
  induction l with
  | nil => rfl
  | cons x xs ih => simpa [List.findSome?_cons, mapGet] using ih

theorem searchItemsBatch_single_nil (catalog : List BuffInfoRow) (d : ScrapedItem)
    (hexact : ∀ r ∈ catalog, r.market_hash_name ∉ generateSearchVariations d)
    (hlike : ∀ r ∈ catalog, hasSub r.market_hash_name.data d.name.data = false) :
    searchItemsBatch catalog [d] = [] := by
  unfold searchItemsBatch
  simp only [List.flatMap_cons, List.flatMap_nil, List.append_nil]
  by_cases hemp : (generateSearchVariations d).isEmpty
  · rw [if_pos hemp]
  · rw [if_neg hemp]
    have hm1 : exactPhase catalog (generateSearchVariations d) CHUNK_SIZE [] = [] := by
      unfold exactPhase
      apply exactFold_nil
      intro c hc
      unfold rowsFor
      rw [List.filter_eq_nil]
      intro r hr hmem
      rw [decide_eq_true_eq] at hmem
      exact hexact r hr (mem_of_mem_chunksOf hc hmem)
    rw [hm1]
    have hpred : ∀ item : ScrapedItem,
        (!((generateSearchVariations item).any
            (fun v => (mapGet ([] : MapL) v).isSome))) = true := by
      intro item
      rw [Bool.not_eq_true', List.any_eq_false]
      intro v _
      simp [mapGet]
    have hfilter :
        catalog.filter (fun r => hasSub r.market_hash_name.data d.name.data) = [] := by
      rw [List.filter_eq_nil]
      intro r hr
      simp [hlike r hr]
    simp [hpred, likePhase, hfilter]

/-! ## Claim C2 -/

/-- C2 counterexample: a non-agent descriptor, all of whose exact-match
candidates miss the catalog, is nonetheless priced from the substring
fallback (the `LIKE` pass has no agent restriction), contradicting the
claimed price sentinel. -/
theorem nonagent_substring_fallback_cex :
    regularItem.isAgent = false ∧
    (∀ r ∈ ([redlineRow] : List BuffInfoRow),
      r.market_hash_name ∉ generateSearchVariations regularItem) ∧
    (enrichWithCatalog [redlineRow] [regularItem]).map (fun o => o.price)
      = [PriceVal.num 10] :=
  ⟨by decide, by decide, by decide⟩

/-- C2 amended: the substring fallback applies to every unmatched descriptor
regardless of category; a non-agent descriptor stays at the `'N/A'` sentinel
(with empty icon, and without error) only when, additionally, no catalog key
contains its name as a substring. -/
theorem nonagent_unmatched_stays_na (catalog : List BuffInfoRow) (d : ScrapedItem)
    (hag : d.isAgent = false)
    (hexact : ∀ r ∈ catalog, r.market_hash_name ∉ generateSearchVariations d)
    (hlike : ∀ r ∈ catalog, hasSub r.market_hash_name.data d.name.data = false) :
    enrichWithCatalog catalog [d] =
      [{ skin := displayNameOf d, wear := wearOf d,
         price := PriceVal.na, imageUrl := "" }] := by
  unfold enrichWithCatalog
  rw [searchItemsBatch_single_nil catalog d hexact hlike, enrichAllItems_some]
  simp only [List.map_cons, List.map_nil]
  congr 1
  unfold enrichOne
  rw [findSome?_mapGet_nil]
  rfl

/-- Witness for the amended C2: a catalog whose single row is unrelated to
the descriptor by exact and substring match alike. -/
theorem nonagent_unmatched_stays_na_witness :
    (regularItem.isAgent = false ∧
     (∀ r ∈ ([farAwayRow] : List BuffInfoRow),
       r.market_hash_name ∉ generateSearchVariations regularItem) ∧
     (∀ r ∈ ([farAwayRow] : List BuffInfoRow),
       hasSub r.market_hash_name.data regularItem.name.data = false)) ∧
    enrichWithCatalog [farAwayRow] [regularItem] =
      [{ skin := displayNameOf regularItem, wear := wearOf regularItem,
         price := PriceVal.na, imageUrl := "" }] :=
  ⟨⟨by decide, by decide, by decide⟩,
   nonagent_unmatched_stays_na [farAwayRow] regularItem (by decide) (by decide) (by decide)⟩

/-! ## Lemmas: string lengths and trim positivity of marked names -/

theorem strLen_append (a b : String) :
    (a ++ b).data.length = a.data.length + b.data.length := by
  rw [strData_append, List.length_append]

theorem trim_pos_statTrak (b : String) :
    0 < (strTrim ("StatTrak™ " ++ b)).data.length := by
  apply trim_pos_of_mem (c := 'S')
  · rw [strData_append]
    exact List.mem_append_left _ (by decide)
  · decide

theorem trim_pos_star_statTrak (s b : String) :
    0 < (strTrim (s ++ "StatTrak™ " ++ b)).data.length := by
  apply trim_pos_of_mem (c := 'S')
  · rw [strData_append, strData_append]
    exact List.mem_append_left _ (List.mem_append_right _ (by decide))
  · decide

/-! ## Claim C3 -/

/-- C3 counterexample: for a StatTrak-tagged agent, the variant
`"Agent | " + base` is generated, but its StatTrak-prefixed form is not —
the StatTrak marker is not prepended to each of the six base variants. -/
theorem statTrak_agent_variants_cex :
    strIncludes agentStatItem.category "StatTrak" = true ∧
    agentStatItem.isAgent = true ∧
    (("Agent | Ground Rebel | Elite Crew" : String)
      ∈ generateSearchVariations agentStatItem) ∧
    (("StatTrak™ Agent | Ground Rebel | Elite Crew" : String)
      ∉ generateSearchVariations agentStatItem) :=
  ⟨by decide, by decide, by decide, by decide⟩

/-- C3 amended: for a StatTrak-tagged agent, the StatTrak marker is prepended
to the base name only — the candidate set contains the StatTrak-prefixed base
name, and its star-prefixed form (the star marker being empty unless the
descriptor is also flagged knife/gloves), but not StatTrak-prefixed versions
of the other five variants. -/
theorem statTrak_agent_base_only (item : ScrapedItem)
    (hag : item.isAgent = true) (hst : strIncludes item.category "StatTrak" = true) :
    (("StatTrak™ " ++ strTrim item.name) ∈ generateSearchVariations item) ∧
    (((if (item.isKnife || item.isGloves) && !(strStarts (strTrim item.name) "★")
        then "★ " else "") ++ "StatTrak™ " ++ strTrim item.name)
      ∈ generateSearchVariations item) := by
  have hne : ¬ (("StatTrak™ " : String) = "") := by decide
  constructor
  · rw [mem_generateSearchVariations]
    refine ⟨?_, trim_pos_statTrak (strTrim item.name)⟩
    unfold rawVariations
    simp only [hag, hst, if_true, if_neg hne]
    simp [List.mem_append]
  · rw [mem_generateSearchVariations]
    refine ⟨?_, trim_pos_star_statTrak _ (strTrim item.name)⟩
    unfold rawVariations
    simp only [hag, hst, if_true, if_neg hne]
    simp [List.mem_append]

/-- Witness for the amended C3 at the concrete StatTrak agent. -/
theorem statTrak_agent_base_only_witness :
    (agentStatItem.isAgent = true ∧
     strIncludes agentStatItem.category "StatTrak" = true) ∧
    (("StatTrak™ " ++ strTrim agentStatItem.name)
      ∈ generateSearchVariations agentStatItem) :=
  ⟨⟨by decide, by decide⟩,
   (statTrak_agent_base_only agentStatItem (by decide) (by decide)).1⟩

/-! ## Claim C4 -/

/-- C4 counterexample: a scraped wear with surrounding whitespace is emitted
verbatim as a candidate — the candidate list is not whitespace-normalized. -/
theorem variations_whitespace_cex :
    ((" X " : String) ∈ generateSearchVariations blankWearItem) ∧
    strTrim " X " ≠ " X " :=
  ⟨by decide, by decide⟩

/-- C4 amended: the candidate list is deduplicated and free of empty or
whitespace-only strings, but not otherwise normalized (the base name is
trimmed before composition, the bare wear candidate is passed through
verbatim, and no case folding occurs). -/
theorem variations_nodup_nonblank (item : ScrapedItem) (v : String)
    (hv : v ∈ generateSearchVariations item) :
    (generateSearchVariations item).Nodup ∧ 0 < (strTrim v).data.length ∧ v ≠ "" := by
  refine ⟨nodup_generateSearchVariations item,
    ((mem_generateSearchVariations item v).mp hv).2, ?_⟩
  intro h
  subst h
  exact absurd ((mem_generateSearchVariations item "").mp hv).2 (by decide)

/-- Witness for the amended C4 at the whitespace-wear descriptor. -/
theorem variations_nodup_nonblank_witness :
    ((" X " : String) ∈ generateSearchVariations blankWearItem) ∧
    ((generateSearchVariations blankWearItem).Nodup ∧
     0 < (strTrim " X ").data.length ∧ (" X " : String) ≠ "") :=
  ⟨by decide, variations_nodup_nonblank blankWearItem " X " (by decide)⟩

/-! ## Claim C5 -/

/-- C5 counterexample: a Souvenir-tagged descriptor's display name is NOT
re-decorated with the Souvenir marker — the display-name adjustment applies
only the StatTrak and star markers. -/
theorem souvenir_display_cex :
    strIncludes souvenirItem.category "Souvenir" = true ∧
    (enrichWithCatalog [] [souvenirItem]).map (fun o => o.skin) = ["Desert Eagle"] ∧
    ("Desert Eagle" : String) ≠ "Souvenir " ++ souvenirItem.name :=
  ⟨by decide, by decide, by decide⟩

/-- C5 amended: the display name is recomputed from the descriptor's own name
and flags (star and StatTrak markers only — Souvenir is not re-applied),
independently of the match outcome: it equals `displayNameOf item` for every
map, and a Souvenir-only descriptor keeps its bare name. -/
theorem displayName_from_flags (m : MapL) (item : ScrapedItem) :
    (enrichOne m item).skin = displayNameOf item ∧
    (strIncludes item.category "Souvenir" = true →
     strIncludes item.category "StatTrak" = false →
     item.isKnife = false → item.isGloves = false →
     (enrichOne m item).skin = item.name) := by
  have h1 : (enrichOne m item).skin = displayNameOf item := by
    unfold enrichOne
    split
    · rfl
    · split <;> rfl
  refine ⟨h1, fun _ hst hk hg => ?_⟩
  rw [h1]
  simp [displayNameOf, hst, hk, hg]

/-- Witness for the amended C5 at the Souvenir descriptor with an empty map. -/
theorem displayName_from_flags_witness :
    (strIncludes souvenirItem.category "Souvenir" = true ∧
     strIncludes souvenirItem.category "StatTrak" = false ∧
     souvenirItem.isKnife = false ∧ souvenirItem.isGloves = false) ∧
    (enrichOne [] souvenirItem).skin = souvenirItem.name :=
  ⟨⟨by decide, by decide, by decide, by decide⟩,
   (displayName_from_flags [] souvenirItem).2 (by decide) (by decide) (by decide)
     (by decide)⟩

/-! ## Claim C7 -/

/-- C7 counterexample: for a knife whose wear string equals its base name,
the bare base name IS a candidate (via the wear fallback element) although
the wear is neither empty nor `"Vanilla"`. -/
theorem knife_bare_name_cex :
    karambitWeird.isKnife = true ∧ karambitWeird.wear ≠ "" ∧
    karambitWeird.wear ≠ "Vanilla" ∧
    (("Karambit" : String) ∈ generateSearchVariations karambitWeird) :=
  ⟨by decide, by decide, by decide, by decide⟩

/-- C7 amended: the concrete knife facts hold (`"★ Karambit (Factory New)"`
generated, bare `"Karambit"` not), and in general a knife descriptor with a
non-empty, non-Vanilla wear distinct from its base name never emits the bare
base name. -/
theorem knife_wear_suffix (item : ScrapedItem)
    (hk : item.isKnife = true) (hag : item.isAgent = false)
    (hw1 : item.wear ≠ "") (hw2 : item.wear ≠ "Vanilla")
    (hwname : item.wear ≠ strTrim item.name) :
    (("★ Karambit (Factory New)" : String) ∈ generateSearchVariations karambitFN) ∧
    (("Karambit" : String) ∉ generateSearchVariations karambitFN) ∧
    strTrim item.name ∉ generateSearchVariations item := by
  refine ⟨by decide, by decide, ?_⟩
  intro hmem
  have hraw := ((mem_generateSearchVariations item _).mp hmem).1
  unfold rawVariations at hraw
  simp only [hag, hk] at hraw
  simp [hw1, hw2] at hraw
  have l1 : ((" (" : String)).data.length = 2 := by decide
  have l2 : ((")" : String)).data.length = 1 := by decide
  have l3 : (("★ " : String)).data.length = 2 := by decide
  rcases hraw with h | h | h | h | h
  · have hlen := congrArg (fun s => s.data.length) h
    simp only [strLen_append, l1, l2] at hlen
    omega
  · have hlen := congrArg (fun s => s.data.length) h
    simp only [strLen_append, l1, l2] at hlen
    omega
  · have hlen := congrArg (fun s => s.data.length) h
    simp only [strLen_append, l1, l2, l3] at hlen
    omega
  · have hlen := congrArg (fun s => s.data.length) h
    simp only [strLen_append, l1, l2] at hlen
    omega
  · exact hwname h.symm

/-- Witness for the amended C7 at the Factory New Karambit. -/
theorem knife_wear_suffix_witness :
    (karambitFN.isKnife = true ∧ karambitFN.isAgent = false ∧
     karambitFN.wear ≠ "" ∧ karambitFN.wear ≠ "Vanilla" ∧
     karambitFN.wear ≠ strTrim karambitFN.name) ∧
    strTrim karambitFN.name ∉ generateSearchVariations karambitFN :=
  ⟨⟨by decide, by decide, by decide, by decide, by decide⟩,
   (knife_wear_suffix karambitFN (by decide) (by decide) (by decide) (by decide)
     (by decide)).2.2⟩

end WebCs2
